import Mathlib

/-!
Shallow embedding of the MCPEdtUnicaen timetable server (src/utils.py and
src/index.py) for verification of its specification claims.

Modelling conventions:
- Naive datetimes are embedded as `Int` microseconds since 0001-01-01T00:00:00,
  the origin of the CPython proleptic-Gregorian calendar; `dtMin` and `dtMax`
  below are the embeddings of `datetime.min` and `datetime.max`.
- Python strings are Lean `String`; character-level work is done on `List Char`.
  Case folding and whitespace are modelled for the ASCII range, which covers
  every value the claims quantify over.
- JSON values are embedded as `JValue`; `json.loads` is embedded by `jsonParse`
  (objects, arrays, strings with the standard escapes, integers and
  fraction/exponent literals, `true`/`false`/`null`; the non-standard
  `NaN`/`Infinity` extensions are out of scope, as are float values, which no
  claim mentions).
- Python exceptions that escape a function are embedded with `Except String`;
  functions that cannot raise keep plain types.
- `list.sort(key=...)` is a stable ascending sort by key; it is embedded by
  `sortByKey`, a stable insertion sort, which is extensionally the same
  function.
-/

namespace MCPEdt

/-! ## Python string primitives -/

/-- ASCII whitespace set of `str.strip` (space, tab, LF, CR, VT, FF). -/
def pyWs (c : Char) : Bool :=
  [' ', '\t', '\n', '\r', Char.ofNat 11, Char.ofNat 12].contains c

/-- Model of `str.strip()` on the character list. -/
def pyStripChars (cs : List Char) : List Char :=
  ((cs.dropWhile pyWs).reverse.dropWhile pyWs).reverse

/-- Model of `str.strip()`. -/
def pyStrip (s : String) : String := String.mk (pyStripChars s.data)

/-- Model of `str.lower()` (ASCII case folding). -/
def pyLower (s : String) : String := String.mk (s.data.map Char.toLower)

/-- Model of the Python substring test `needle in hay` on character lists:
containment as a contiguous sublist; the empty needle is contained in
everything. -/
def pyInChars (needle hay : List Char) : Bool :=
  hay.tails.any (fun t => needle.isPrefixOf t)

/-- Model of the Python substring test `needle in hay` on strings. -/
def pyIn (needle hay : String) : Bool := pyInChars needle.data hay.data

/-! ## Stable sort by an integer key, modelling `list.sort(key=...)` -/

/-- Insert `x` after every element whose key is less than or equal, so that
elements already present keep priority on ties (stability). -/
def insertByKey {α : Type} (key : α → Int) (x : α) : List α → List α
  | [] => [x]
  | y :: ys => if key y ≤ key x then y :: insertByKey key x ys else x :: y :: ys

/-- Stable ascending sort by key, the embedding of `list.sort(key=...)`. -/
def sortByKey {α : Type} (key : α → Int) (l : List α) : List α :=
  l.foldl (fun acc x => insertByKey key x acc) []

/-! ## CPython proleptic-Gregorian calendar arithmetic (datetime internals) -/

def isLeap (y : Nat) : Bool := y % 4 == 0 && (y % 100 != 0 || y % 400 == 0)

def daysInMonth (y m : Nat) : Nat :=
  if m == 2 then (if isLeap y then 29 else 28)
  else if m == 4 || m == 6 || m == 9 || m == 11 then 30
  else 31

/-- Days of the calendar strictly before January 1 of year `y`. -/
def daysBeforeYear (y : Nat) : Nat :=
  365 * (y - 1) + (y - 1) / 4 - (y - 1) / 100 + (y - 1) / 400

/-- Days of year `y` strictly before month `m`. -/
def daysBeforeMonth (y m : Nat) : Nat :=
  (List.range' 1 (m - 1)).foldl (fun a mm => a + daysInMonth y mm) 0

/-- Microseconds from 0001-01-01T00:00:00 to the given field values. -/
def toTS (y mo d h mi s : Nat) : Int :=
  (((daysBeforeYear y + daysBeforeMonth y mo + (d - 1)) * 86400
      + h * 3600 + mi * 60 + s) * 1000000 : Nat)

/-- Embedding of the `datetime(...)` constructor: validates field ranges the
way CPython does and returns the instant, else fails. -/
def mkDatetime (y mo d h mi s : Nat) : Option Int :=
  if 1 ≤ y && y ≤ 9999 && 1 ≤ mo && mo ≤ 12 && 1 ≤ d && d ≤ daysInMonth y mo
      && h ≤ 23 && mi ≤ 59 && s ≤ 59 then
    some (toTS y mo d h mi s)
  else none

/-- Embedding of `datetime.min` (0001-01-01T00:00:00). -/
def dtMin : Int := 0

/-- Embedding of `datetime.max` (9999-12-31T23:59:59.999999). -/
def dtMax : Int := toTS 9999 12 31 23 59 59 + 999999

/-! ## Digit helpers -/

def digitChar (n : Nat) : Char := Char.ofNat (48 + n)

def d2 (a b : Char) : Option Nat :=
  if a.isDigit && b.isDigit then some ((a.toNat - 48) * 10 + (b.toNat - 48)) else none

def d4 (a b c d : Char) : Option Nat :=
  if a.isDigit && b.isDigit && c.isDigit && d.isDigit then
    some ((a.toNat - 48) * 1000 + (b.toNat - 48) * 100 + (c.toNat - 48) * 10 + (d.toNat - 48))
  else none

/-! ## strptime and fromisoformat models

The feeds use the fixed-width compact timestamps `YYYYMMDDTHHMMSS[Z]` and
`YYYYMMDDTHHMM`; the functions below embed `datetime.strptime` applied to the
three format strings the source uses, at that fixed width. -/

/-- Model of `strptime(s, "%Y%m%dT%H%M%S")`. -/
def strptimeYmdTHMS (cs : List Char) : Option Int :=
  match cs with
  | [y1, y2, y3, y4, a1, a2, b1, b2, t, h1, h2, m1, m2, s1, s2] =>
    if t == 'T' then do
      let y ← d4 y1 y2 y3 y4
      let mo ← d2 a1 a2
      let d ← d2 b1 b2
      let h ← d2 h1 h2
      let mi ← d2 m1 m2
      let s ← d2 s1 s2
      mkDatetime y mo d h mi s
    else none
  | _ => none

/-- Model of `strptime(s, "%Y%m%dT%H%M")`. -/
def strptimeYmdTHM (cs : List Char) : Option Int :=
  match cs with
  | [y1, y2, y3, y4, a1, a2, b1, b2, t, h1, h2, m1, m2] =>
    if t == 'T' then do
      let y ← d4 y1 y2 y3 y4
      let mo ← d2 a1 a2
      let d ← d2 b1 b2
      let h ← d2 h1 h2
      let mi ← d2 m1 m2
      mkDatetime y mo d h mi 0
    else none
  | _ => none

/-- Model of `strptime(s, "%Y%m%dT%H%M%SZ")`. -/
def strptimeYmdTHMSZ (cs : List Char) : Option Int :=
  match cs with
  | [y1, y2, y3, y4, a1, a2, b1, b2, t, h1, h2, m1, m2, s1, s2, z] =>
    if t == 'T' && z == 'Z' then do
      let y ← d4 y1 y2 y3 y4
      let mo ← d2 a1 a2
      let d ← d2 b1 b2
      let h ← d2 h1 h2
      let mi ← d2 m1 m2
      let s ← d2 s1 s2
      mkDatetime y mo d h mi s
    else none
  | _ => none

/-- Model of `datetime.fromisoformat` on the extended ISO core accepted by all
CPython versions: `YYYY-MM-DD`, optionally followed by `T` or a space and
`HH:MM` or `HH:MM:SS`. -/
def fromIso (cs : List Char) : Option Int :=
  match cs with
  | [y1, y2, y3, y4, c1, a1, a2, c2, b1, b2] =>
    if c1 == '-' && c2 == '-' then do
      let y ← d4 y1 y2 y3 y4
      let mo ← d2 a1 a2
      let d ← d2 b1 b2
      mkDatetime y mo d 0 0 0
    else none
  | [y1, y2, y3, y4, c1, a1, a2, c2, b1, b2, sep, h1, h2, c3, m1, m2] =>
    if c1 == '-' && c2 == '-' && (sep == 'T' || sep == ' ') && c3 == ':' then do
      let y ← d4 y1 y2 y3 y4
      let mo ← d2 a1 a2
      let d ← d2 b1 b2
      let h ← d2 h1 h2
      let mi ← d2 m1 m2
      mkDatetime y mo d h mi 0
    else none
  | [y1, y2, y3, y4, c1, a1, a2, c2, b1, b2, sep, h1, h2, c3, m1, m2, c4, s1, s2] =>
    if c1 == '-' && c2 == '-' && (sep == 'T' || sep == ' ') && c3 == ':' && c4 == ':' then do
      let y ← d4 y1 y2 y3 y4
      let mo ← d2 a1 a2
      let d ← d2 b1 b2
      let h ← d2 h1 h2
      let mi ← d2 m1 m2
      let s ← d2 s1 s2
      mkDatetime y mo d h mi s
    else none
  | _ => none

/-! ## JSON values and the `json.loads` model -/

/-- Embedding of the Python values produced by `json.loads`. Numeric literals
keep sign, integer digits, fraction digits and exponent so that Python
truthiness is computable; no claim inspects numeric values further. -/
inductive JValue where
  | null
  | bool (b : Bool)
  | num (neg : Bool) (ip : Nat) (frac : List Nat) (expo : Int)
  | str (s : String)
  | arr (elems : List JValue)
  | obj (entries : List (String × JValue))

/-- Python truthiness of a JSON-derived value. -/
def pyTruthy : JValue → Bool
  | .null => false
  | .bool b => b
  | .num _ ip frac _ => ip != 0 || frac.any (fun d => d != 0)
  | .str s => !s.data.isEmpty
  | .arr xs => !xs.isEmpty
  | .obj kvs => !kvs.isEmpty

/-- Model of `d.get(k)` on a parsed JSON object (`None` for a missing key,
later duplicate keys override earlier ones, as in `json.loads`). The callers
below only apply it after an `isinstance(..., dict)` style guard. -/
def jGet : JValue → String → JValue
  | .obj kvs, k => kvs.foldl (fun acc p => if p.1 == k then p.2 else acc) .null
  | _, _ => .null

/-- Model of the Python expression `a or b`. -/
def pyOr (a b : JValue) : JValue := if pyTruthy a then a else b

def jsonWs (c : Char) : Bool := [' ', '\t', '\n', '\r'].contains c

def skipWs (cs : List Char) : List Char := cs.dropWhile jsonWs

def hexVal (c : Char) : Option Nat :=
  if c.isDigit then some (c.toNat - 48)
  else if 'a' ≤ c && c ≤ 'f' then some (c.toNat - 87)
  else if 'A' ≤ c && c ≤ 'F' then some (c.toNat - 55)
  else none

def escCodes : List (Char × Char) :=
  [('"', '"'), ('\\', '\\'), ('/', '/'), ('b', Char.ofNat 8), ('f', Char.ofNat 12),
   ('n', '\n'), ('r', '\r'), ('t', '\t')]

def escChar (c : Char) : Option Char :=
  (escCodes.find? (fun p => p.1 == c)).map (fun p => p.2)

/-- String body scanner of the JSON reader, positioned after the opening
quote; returns the decoded characters and the input after the closing quote.
Lone surrogate escapes are mapped to the replacement of `Char.ofNat`, a
corner no claim exercises. -/
def parseJString : Nat → List Char → Option (List Char × List Char)
  | 0, _ => none
  | _, [] => none
  | fuel + 1, c :: rest =>
    if c == '"' then some ([], rest)
    else if c == '\\' then
      match rest with
      | [] => none
      | e :: rest2 =>
        if e == 'u' then
          match rest2 with
          | a :: b :: c2 :: d :: rest3 => do
            let ha ← hexVal a
            let hb ← hexVal b
            let hc ← hexVal c2
            let hd ← hexVal d
            let (s, r) ← parseJString fuel rest3
            some (Char.ofNat (((ha * 16 + hb) * 16 + hc) * 16 + hd) :: s, r)
          | _ => none
        else do
          let ch ← escChar e
          let (s, r) ← parseJString fuel rest2
          some (ch :: s, r)
    else if c.toNat < 32 then none
    else do
      let (s, r) ← parseJString fuel rest
      some (c :: s, r)

/-- Number scanner of the JSON reader (JSON grammar: optional sign, integer
part without spurious leading zero, optional fraction, optional exponent). -/
def parseJNumBody (neg : Bool) (cs1 : List Char) : Option (JValue × List Char) :=
  match cs1.span Char.isDigit with
  | (ds, r2) =>
    if ds.isEmpty then none
    else if ds.length > 1 && ds.head? == some '0' then none
    else
      let ip := ds.foldl (fun a c => a * 10 + (c.toNat - 48)) 0
      let (frac, r3) := match r2 with
        | '.' :: r2a =>
          match r2a.span Char.isDigit with
          | (fs, r2b) => (fs.map (fun c => c.toNat - 48), r2b)
        | _ => ([], r2)
      match r2 with
      | '.' :: r2a =>
        if (r2a.takeWhile Char.isDigit).isEmpty then none
        else parseJNumExp neg ip frac r3
      | _ => parseJNumExp neg ip frac r3
where
  parseJNumExp (neg : Bool) (ip : Nat) (frac : List Nat) (r : List Char) :
      Option (JValue × List Char) :=
    match r with
    | 'e' :: r1 => parseJNumExpTail neg ip frac r1
    | 'E' :: r1 => parseJNumExpTail neg ip frac r1
    | _ => some (.num neg ip frac 0, r)
  parseJNumExpTail (neg : Bool) (ip : Nat) (frac : List Nat) (r1 : List Char) :
      Option (JValue × List Char) :=
    let (esign, r2) := match r1 with
      | '+' :: ra => ((1 : Int), ra)
      | '-' :: ra => ((-1 : Int), ra)
      | _ => ((1 : Int), r1)
    match r2.span Char.isDigit with
    | (es, r3) =>
      if es.isEmpty then none
      else some (.num neg ip frac (esign * (es.foldl (fun a c => a * 10 + (c.toNat - 48)) 0 : Nat)), r3)

/-- Number scanner entry: an optional leading minus, then the body. -/
def parseJNum : List Char → Option (JValue × List Char)
  | '-' :: r => parseJNumBody true r
  | cs => parseJNumBody false cs

mutual

/-- Value scanner of the JSON reader; the fuel argument strictly exceeds the
number of remaining tokens, so it never runs out on inputs fed by
`jsonParse`. -/
def parseVal : Nat → List Char → Option (JValue × List Char)
  | 0, _ => none
  | fuel + 1, cs =>
    match skipWs cs with
    | '{' :: r => parseObjBody fuel (skipWs r) []
    | '[' :: r => parseArrBody fuel (skipWs r) []
    | '"' :: r => (parseJString (fuel + 1) r).map (fun p => (.str (String.mk p.1), p.2))
    | 't' :: r => if "rue".data.isPrefixOf r then some (.bool true, r.drop 3) else none
    | 'f' :: r => if "alse".data.isPrefixOf r then some (.bool false, r.drop 4) else none
    | 'n' :: r => if "ull".data.isPrefixOf r then some (.null, r.drop 3) else none
    | cs2 => parseJNum cs2

def parseObjBody : Nat → List Char → List (String × JValue) → Option (JValue × List Char)
  | 0, _, _ => none
  | fuel + 1, cs, acc =>
    match cs with
    | '}' :: r => if acc.isEmpty then some (.obj acc, r) else none
    | '"' :: r =>
      match parseJString (fuel + 1) r with
      | none => none
      | some (k, r1) =>
        match skipWs r1 with
        | ':' :: r2 =>
          match parseVal fuel r2 with
          | none => none
          | some (v, r3) =>
            match skipWs r3 with
            | ',' :: r4 => parseObjBody fuel (skipWs r4) (acc ++ [(String.mk k, v)])
            | '}' :: r4 => some (.obj (acc ++ [(String.mk k, v)]), r4)
            | _ => none
        | _ => none
    | _ => none

def parseArrBody : Nat → List Char → List JValue → Option (JValue × List Char)
  | 0, _, _ => none
  | fuel + 1, cs, acc =>
    match cs with
    | ']' :: r => if acc.isEmpty then some (.arr acc, r) else none
    | _ =>
      match parseVal fuel cs with
      | none => none
      | some (v, r1) =>
        match skipWs r1 with
        | ',' :: r2 => parseArrBody fuel (skipWs r2) (acc ++ [v])
        | ']' :: r2 => some (.arr (acc ++ [v]), r2)
        | _ => none

end

/-- Embedding of `json.loads`: parse one value, require the remaining input to
be whitespace; any failure is the malformed-JSON outcome. -/
def jsonParse (s : String) : Option JValue :=
  match parseVal (s.data.length + 2) s.data with
  | some (v, rest) => if (skipWs rest).isEmpty then some v else none
  | none => none

/-! ## Normalized events

Both parsers produce events with a start instant, an optional end instant, a
summary (a JSON value in the structured path, a plain string in the calendar
path, embedded as a string value) and the raw per-event payload. -/

/-- Raw per-event payload: a parsed mapping on the JSON path, the text block
on the calendar path. -/
inductive RawPayload where
  | dict (j : JValue)
  | text (cs : List Char)

/-- Event as built by the two feed readers, before end-time normalization.
The Python key `end` is a Lean keyword, hence the field name `end_`. -/
structure PEvent where
  start : Int
  end_ : Option Int
  summary : JValue
  raw : RawPayload

/-- Event after the orchestrator normalization step `end := start` when no end
was parsed. -/
structure NEvent where
  start : Int
  end_ : Int
  summary : JValue
  raw : RawPayload

/-! ## Calendar-interchange (ICS) reading

The source splits the text on the regex BEGIN:VEVENT followed by an optional
CR and a LF, truncates each part at END:VEVENT, and then applies
`re.search` with the patterns DTSTART/DTEND with optional parameters before
the colon, capturing a nonempty run over the class digits, T, Z, plus,
minus; and SUMMARY with a nonempty capture up to the end of line. The
functions below model those regex searches: try a match at each successive
start position and return the first capture. -/

def beginCrlf : List Char := "BEGIN:VEVENT\r\n".data

def beginLf : List Char := "BEGIN:VEVENT\n".data

/-- Model of `re.split` on the BEGIN:VEVENT separator: accumulate characters
until a separator occurrence, consume it, continue. -/
def splitVeventsAux : List Char → List Char → List (List Char)
  | [], acc => [acc.reverse]
  | c :: rest, acc =>
    if beginCrlf.isPrefixOf (c :: rest) then
      acc.reverse :: splitVeventsAux (rest.drop 13) []
    else if beginLf.isPrefixOf (c :: rest) then
      acc.reverse :: splitVeventsAux (rest.drop 12) []
    else
      splitVeventsAux rest (c :: acc)
termination_by cs _ => cs.length
decreasing_by
  all_goals simp [List.length_drop]
  all_goals omega

def splitVevents (cs : List Char) : List (List Char) := splitVeventsAux cs []

/-- Model of `part.split("END:VEVENT")[0]`. -/
def takeUntilPat (pat : List Char) : List Char → List Char
  | [] => []
  | c :: rest => if pat.isPrefixOf (c :: rest) then [] else c :: takeUntilPat pat rest

/-- Character class of the captured DTSTART/DTEND value. -/
def charInIcsClass (c : Char) : Bool :=
  c.isDigit || c == 'T' || c == 'Z' || c == '+' || c == '-'

def captureIcsValue (cs : List Char) : Option (List Char) :=
  let v := cs.takeWhile charInIcsClass
  if v.isEmpty then none else some v

/-- Attempt the pattern tag, optional semicolon parameters, colon, captured
value, at the current position. -/
def tryTagAt (tag : List Char) (cs : List Char) : Option (List Char) :=
  if tag.isPrefixOf cs then
    match cs.drop tag.length with
    | ':' :: r => captureIcsValue r
    | ';' :: r =>
      match r.span (fun c => c != ':') with
      | (pre, r1) =>
        if pre.isEmpty then none
        else
          match r1 with
          | ':' :: r2 => captureIcsValue r2
          | _ => none
    | _ => none
  else none

/-- Attempt the pattern SUMMARY colon, then a nonempty capture of characters
other than LF, at the current position. -/
def trySummaryAt (cs : List Char) : Option (List Char) :=
  if "SUMMARY:".data.isPrefixOf cs then
    let v := (cs.drop 8).takeWhile (fun c => c != '\n')
    if v.isEmpty then none else some v
  else none

/-- Attempt the pattern LOCATION colon, then a nonempty capture of characters
other than CR and LF, at the current position. -/
def tryLocationAt (cs : List Char) : Option (List Char) :=
  if "LOCATION:".data.isPrefixOf cs then
    let v := (cs.drop 9).takeWhile (fun c => c != '\r' && c != '\n')
    if v.isEmpty then none else some v
  else none

/-- Model of `re.search`: first position at which the attempt succeeds. -/
def scanFor (tryAt : List Char → Option (List Char)) : List Char → Option (List Char)
  | [] => tryAt []
  | c :: rest =>
    match tryAt (c :: rest) with
    | some v => some v
    | none => scanFor tryAt rest

def dtstartTag : List Char := "DTSTART".data

def dtendTag : List Char := "DTEND".data

def endVeventPat : List Char := "END:VEVENT".data

/-- Bare 8-digit all-day date test, `re.fullmatch` of eight digits. -/
def eightDigits (cs : List Char) : Bool := cs.length == 8 && cs.all Char.isDigit

/-- Timestamp parse of the calendar path: the UTC-suffixed compact format when
the value ends in Z, otherwise seconds-included then seconds-omitted compact
formats. -/
def parseIcsDT (cs : List Char) : Option Int :=
  if cs.getLast? == some 'Z' then strptimeYmdTHMSZ cs
  else strptimeYmdTHMS cs <|> strptimeYmdTHM cs

/-- Per-block event extraction of `parse_ics_events`: truncate at END:VEVENT,
extract DTSTART (skipping the block when absent, all-day, or unparseable),
extract DTEND and SUMMARY best-effort. -/
def icsBlockEventFull (part : List Char) : Option PEvent :=
  let vevent := takeUntilPat endVeventPat part
  match scanFor (tryTagAt dtstartTag) vevent with
  | none => none
  | some v =>
    let dtstart := pyStripChars v
    if eightDigits dtstart then none
    else
      match parseIcsDT dtstart with
      | none => none
      | some dt1 =>
        let dt2 := (scanFor (tryTagAt dtendTag) vevent).bind (fun w => parseIcsDT (pyStripChars w))
        let s := ((scanFor trySummaryAt vevent).map pyStripChars).getD []
        some { start := dt1, end_ := dt2, summary := .str (String.mk s), raw := .text vevent }

/-- Per-block event extraction written in the loop body of
`parse_ics_next_event` (start and summary only, utils.py lines 180 to 211;
those lines are well-formed in isolation, though the enclosing function is
not, see below). -/
def icsBlockEventNext (part : List Char) : Option (Int × String) :=
  let vevent := takeUntilPat endVeventPat part
  match scanFor (tryTagAt dtstartTag) vevent with
  | none => none
  | some v =>
    let dtstr := pyStripChars v
    if eightDigits dtstr then none
    else
      match parseIcsDT dtstr with
      | none => none
      | some dt =>
        let s := ((scanFor trySummaryAt vevent).map pyStripChars).getD []
        some (dt, String.mk s)

/-- Embedding of `parse_ics_events`: all parts after the first separator, one
optional event per block. -/
def parse_ics_events (ics : String) : List PEvent :=
  ((splitVevents ics.data).drop 1).filterMap icsBlockEventFull

/-- Embedding of `parse_ics_next_event`. The body of the source function is
not valid Python: the final return at utils.py line 219 is indented one
level too far after the assignment at line 218, an IndentationError raised
when the enclosing code is compiled, so no call of this entry point can
ever return a result. A call is embedded as that error. -/
def parse_ics_next_event (now : Int) (ics : String) :
    Except String (Option (Int × String)) :=
  .error "IndentationError: unexpected indent (utils.py line 219)"

/-- Modelled from the spec: the next-future-event entry point of the calendar
parser, which the running program is missing because the body of
`parse_ics_next_event` does not compile. Per the spec it mirrors the
structured parser: per-block start and summary extraction over the split
blocks, keep the events after now, return the one with the earliest start
(ties broken by scan order, stable sort). The spec formats the start with
isoformat; the model keeps the instant itself. -/
def spec_ics_next_event (now : Int) (ics : String) : Option (Int × String) :=
  let events := ((splitVevents ics.data).drop 1).filterMap icsBlockEventNext
  let future := events.filter (fun e => decide (e.1 > now))
  (sortByKey (fun e => e.1) future).head?

/-! ## Structured-feed (update endpoint JSON) reading -/

/-- Timestamp parse of the structured path: the two compact formats in order,
then the generic ISO parse; a non-string value fails every attempt (the
TypeError each raises is caught by the per-format handler in the source). -/
def parseUpdDT (v : JValue) : Option Int :=
  match v with
  | .str s => strptimeYmdTHMS s.data <|> strptimeYmdTHM s.data <|> fromIso s.data
  | _ => none

/-- Per-record event extraction of `parse_update_json_events`, for a record
that is a mapping. -/
def recordEventFull (ev : JValue) : Option PEvent :=
  let dtstr := pyOr (jGet ev "DTSTART") (pyOr (jGet ev "start") .null)
  let dtendstr := pyOr (jGet ev "DTEND") (pyOr (jGet ev "end") .null)
  let summary := pyOr (jGet ev "SUMMARY") (pyOr (jGet ev "summary") (.str ""))
  if pyTruthy dtstr then
    match parseUpdDT dtstr with
    | none => none
    | some dt =>
      let dtend := if pyTruthy dtendstr then parseUpdDT dtendstr else none
      some { start := dt, end_ := dtend, summary := summary, raw := .dict ev }
  else none

/-- Per-record event extraction of `parse_update_json_and_next_event` (start
and summary only; the summary fallback chain also tries the
SUMMARY:CONFERENCE key). -/
def recordEventNext (ev : JValue) : Option (Int × JValue) :=
  let dtstr := pyOr (jGet ev "DTSTART") (pyOr (jGet ev "start") .null)
  let summary := pyOr (jGet ev "SUMMARY")
    (pyOr (jGet ev "summary") (pyOr (jGet ev "SUMMARY:CONFERENCE") (.str "")))
  if pyTruthy dtstr then
    (parseUpdDT dtstr).map (fun dt => (dt, summary))
  else none

/-- Per-day-record content selection: skip non-mapping day values, read the
content key with an empty-list default, skip a content value that is not a
list. -/
def dayContent (val : JValue) : Option (List JValue) :=
  match val with
  | .obj _ =>
    match pyOr (jGet val "content") (.arr []) with
    | .arr xs => some xs
    | _ => none
  | _ => none

/-- Processing of one record of a content list in `parse_update_json_events`:
the `ev.get` of the source raises on a record that is not a mapping, embedded
as the error case; otherwise at most one event is appended. -/
def contentStep (acc : List PEvent) (ev : JValue) : Except String (List PEvent) :=
  match ev with
  | .obj _ => .ok (acc ++ (recordEventFull ev).toList)
  | _ => .error "AttributeError: get on a non-mapping event record"

/-- Processing of one day record in `parse_update_json_events`: skip it when
an `only_date` filter is active (a truthy value different from the key skips;
an empty-string filter is falsy and filters nothing), then walk its content
list. -/
def dayStep (onlyDate : Option String) (acc : List PEvent) (kv : String × JValue) :
    Except String (List PEvent) :=
  if (onlyDate.getD "") != "" && kv.1 != onlyDate.getD "" then .ok acc
  else
    match dayContent kv.2 with
    | none => .ok acc
    | some content => content.foldlM contentStep acc

/-- Embedding of `parse_update_json_events`. Malformed top-level JSON yields
the empty list; a non-mapping top-level value makes `data.items()` raise. -/
def parse_update_json_events (jsonText : String) (onlyDate : Option String) :
    Except String (List PEvent) :=
  match jsonParse jsonText with
  | none => .ok []
  | some data =>
    match data with
    | .obj kvs => kvs.foldlM (dayStep onlyDate) []
    | _ => .error "AttributeError: items on a non-mapping top-level value"

/-- Records walked by `parse_update_json_events`: the concatenated content
lists of the day records that pass the date filter. -/
def selectedContent (kvs : List (String × JValue)) (onlyDate : Option String) : List JValue :=
  kvs.flatMap (fun kv =>
    if (onlyDate.getD "") != "" && kv.1 != onlyDate.getD "" then []
    else (dayContent kv.2).getD [])

/-- Content-record processing of `parse_update_json_and_next_event`. -/
def contentStepNext (acc : List (Int × JValue)) (ev : JValue) :
    Except String (List (Int × JValue)) :=
  match ev with
  | .obj _ => .ok (acc ++ (recordEventNext ev).toList)
  | _ => .error "AttributeError: get on a non-mapping event record"

/-- Day-record processing of `parse_update_json_and_next_event` (no date
filter on this entry point). -/
def dayStepNext (acc : List (Int × JValue)) (kv : String × JValue) :
    Except String (List (Int × JValue)) :=
  match dayContent kv.2 with
  | none => .ok acc
  | some content => content.foldlM contentStepNext acc

/-- Embedding of `parse_update_json_and_next_event`: collect events from every
day record, keep the future ones, return the one with the earliest start.
The source formats the start with `isoformat`; the model keeps the
instant. -/
def parse_update_json_and_next_event (now : Int) (jsonText : String) :
    Except String (Option (Int × JValue)) :=
  match jsonParse jsonText with
  | none => .ok none
  | some data =>
    match data with
    | .obj kvs => do
      let events ← kvs.foldlM dayStepNext []
      .ok ((sortByKey (fun e => e.1) (events.filter (fun e => decide (e.1 > now)))).head?)
    | _ => .error "AttributeError: items on a non-mapping top-level value"

/-! ## Directory index (`find_entries_by_name`) -/

/-- Directory entry of the prof, student, salle and timetable collections. -/
structure RawItem where
  descTT : Option String
  adeUniv : Option String
  adeResources : Option String
  adeProjectId : Option Int
  deriving DecidableEq

/-- Directory entry of the univ collection. -/
structure UnivItem where
  nameUniv : Option String
  adeUniv : Option String
  timetable : List RawItem
  deriving DecidableEq

/-- The four in-memory collections loaded at startup. -/
structure Directory where
  prof : List RawItem
  student : List RawItem
  salle : List RawItem
  univ : List UnivItem
  deriving DecidableEq

/-- Result record of `find_entries_by_name`. The timetable key exists only on
univ records, embedded with an optional field; the `int(...)` conversion of
adeProjectId is the identity here because the field is already integral. -/
structure FoundEntry where
  type : String
  desc : Option String
  adeUniv : Option String
  adeResources : Option String
  adeProjectId : Option Int
  timetable : Option (List RawItem)
  deriving DecidableEq

/-- Result record built by `check_list` for one matching item: the stored
display name is the stripped one the match was tested against. -/
def listEntry (typ : String) (it : RawItem) : FoundEntry :=
  { type := typ, desc := some (pyStrip (it.descTT.getD "")), adeUniv := it.adeUniv,
    adeResources := it.adeResources, adeProjectId := it.adeProjectId,
    timetable := none }

/-- Inner helper `check_list` of `find_entries_by_name`: keep items whose
stripped display name is nonempty and contains the lowered name. -/
def checkList (items : List RawItem) (typ : String) (nameL : String) : List FoundEntry :=
  items.filterMap (fun it =>
    let desc := pyStrip (it.descTT.getD "")
    if !desc.data.isEmpty && pyIn nameL (pyLower desc) then some (listEntry typ it)
    else none)

def univEntry (u : UnivItem) : FoundEntry :=
  { type := "univ", desc := u.nameUniv, adeUniv := u.adeUniv,
    adeResources := none, adeProjectId := none, timetable := some u.timetable }

def ttEntry (u : UnivItem) (t : RawItem) : FoundEntry :=
  { type := "univ-timetable", desc := t.descTT, adeUniv := u.adeUniv,
    adeResources := t.adeResources, adeProjectId := t.adeProjectId, timetable := none }

/-- Embedding of `find_entries_by_name`: scan professors, students, rooms,
then each institution and its sub-timetables, in source order. -/
def find_entries_by_name (dir : Directory) (name : String) : List FoundEntry :=
  let nameL := pyLower name
  checkList dir.prof "prof" nameL
    ++ checkList dir.student "student" nameL
    ++ checkList dir.salle "salle" nameL
    ++ dir.univ.flatMap (fun u =>
        (if pyIn nameL (pyLower (u.nameUniv.getD "")) then [univEntry u] else [])
          ++ u.timetable.filterMap (fun t =>
              if pyIn nameL (pyLower (t.descTT.getD "")) then some (ttEntry u t) else none))

/-! ## Query URL builder (`build_ade_url`) -/

/-- Calendar date, the argument of `build_ade_url`. -/
structure Date where
  year : Nat
  month : Nat
  day : Nat
  deriving DecidableEq

def natDigitsAux : Nat → Nat → List Char
  | 0, _ => []
  | fuel + 1, n => if n < 10 then [digitChar n] else natDigitsAux fuel (n / 10) ++ [digitChar (n % 10)]

/-- Decimal digits of a natural number. -/
def natDigits (n : Nat) : List Char := natDigitsAux (n + 1) n

/-- Zero-padded decimal rendering of width `w`. -/
def padNum (w n : Nat) : List Char :=
  List.replicate (w - (natDigits n).length) '0' ++ natDigits n

/-- Model of `d.strftime("%Y-%m-%d")`. -/
def fmtDateYmd (d : Date) : String :=
  String.mk (padNum 4 d.year ++ ['-'] ++ padNum 2 d.month ++ ['-'] ++ padNum 2 d.day)

/-- Characters the urllib quoting leaves untouched: ASCII letters, digits,
underscore, dot, dash, tilde. -/
def qpSafe (c : Char) : Bool :=
  c.isAlpha || c.isDigit || c == '_' || c == '.' || c == '-' || c == '~'

/-- UTF-8 bytes of a character. -/
def utf8Bytes (c : Char) : List Nat :=
  let n := c.toNat
  if n < 128 then [n]
  else if n < 2048 then [192 + n / 64, 128 + n % 64]
  else if n < 65536 then [224 + n / 4096, 128 + (n / 64) % 64, 128 + n % 64]
  else [240 + n / 262144, 128 + (n / 4096) % 64, 128 + (n / 64) % 64, 128 + n % 64]

def hexDigitUpper (n : Nat) : Char := if n < 10 then digitChar n else Char.ofNat (55 + n)

def pctByte (b : Nat) : List Char := ['%', hexDigitUpper (b / 16), hexDigitUpper (b % 16)]

/-- Per-character quoting of `urllib.parse.quote_plus`: safe characters kept,
space becomes plus, anything else percent-encodes its UTF-8 bytes. -/
def qpChar (c : Char) : List Char :=
  if qpSafe c then [c] else if c == ' ' then ['+'] else (utf8Bytes c).flatMap pctByte

def qpChars : List Char → List Char
  | [] => []
  | c :: cs => qpChar c ++ qpChars cs

/-- Model of `urllib.parse.quote_plus`. -/
def quotePlus (s : String) : String := String.mk (qpChars s.data)

/-- Model of `urllib.parse.urlencode` on an ordered parameter list. -/
def urlencode : List (String × String) → String
  | [] => ""
  | [(k, v)] => quotePlus k ++ "=" ++ quotePlus v
  | (k, v) :: rest => quotePlus k ++ "=" ++ quotePlus v ++ "&" ++ urlencode rest

/-- Embedding of `build_ade_url`. The current local date enters as the
explicit `today` argument; the source also prints the URL it returns, a log
line that does not affect the result. -/
def build_ade_url (entry : FoundEntry) (date : Option Date) (today : Date) : Option String :=
  match entry.adeProjectId, entry.adeResources with
  | some pid, some res =>
    some ("https://edt.infuseting.fr/update/index.php" ++ "?" ++
      urlencode [("adeBase", toString pid), ("adeRessources", res),
                 ("lastUpdate", "0"), ("date", fmtDateYmd (date.getD today))])
  | _, _ => none

/-! ## Temporal reasoner (`disponibilite_salle` and `ou_est_prof` decision
logic)

The guards `e["start"] and e["end"]` of the source comprehensions are
omitted: datetime objects are always truthy, and after normalization both
keys hold datetimes. -/

/-- End-time normalization of the orchestrators: a missing end becomes the
start. -/
def normalizeEvent (e : PEvent) : NEvent :=
  { start := e.start, end_ := e.end_.getD e.start, summary := e.summary, raw := e.raw }

def normalizeEvents (events : List PEvent) : List NEvent := events.map normalizeEvent

/-- Window-intersection filter of `disponibilite_salle`: keep events that
start before the effective window end and end after the effective window
start, a missing bound defaulting to `datetime.min` or `datetime.max`. The
pre-normalization end defaults to the start, as in `ev.get("end") or
ev_start`. -/
def windowFilter (events : List PEvent) (startDt endDt : Option Int) : List PEvent :=
  events.filter (fun ev =>
    let evEnd := ev.end_.getD ev.start
    let winStart := startDt.getD dtMin
    let winEnd := endDt.getD dtMax
    decide (ev.start < winEnd ∧ evEnd > winStart))

/-- Events in progress at `now`. -/
def ongoingOf (events : List NEvent) (now : Int) : List NEvent :=
  events.filter (fun e => decide (e.start ≤ now ∧ now < e.end_))

/-- Events starting strictly after `now`. -/
def futureOf (events : List NEvent) (now : Int) : List NEvent :=
  events.filter (fun e => decide (e.start > now))

/-- Ongoing event with the earliest end: sort by end, take the first. -/
def pickOngoing (events : List NEvent) (now : Int) : Option NEvent :=
  (sortByKey (fun e => e.end_) (ongoingOf events now)).head?

/-- Future event with the earliest start: sort by start, take the first. -/
def pickFuture (events : List NEvent) (now : Int) : Option NEvent :=
  (sortByKey (fun e => e.start) (futureOf events now)).head?

/-- Availability answer shape: busy until an instant, free until a next
start, or free with no known bound (`free_until = None`). -/
inductive Avail where
  | busy (until_ : Int) (summary : JValue)
  | freeUntil (t : Int) (nextSummary : JValue)
  | freeAllDay

/-- Decision logic shared by the room and professor orchestrators over
normalized events. -/
def availability (events : List NEvent) (now : Int) : Avail :=
  match pickOngoing events now with
  | some e => .busy e.end_ e.summary
  | none =>
    match pickFuture events now with
    | some nxt => .freeUntil nxt.start nxt.summary
    | none => .freeAllDay

/-- The guard `start_dt and end_dt and end_dt < start_dt`. -/
def invalidRangeCheck : Option Int → Option Int → Bool
  | some s, some e => decide (e < s)
  | _, _ => false

/-- Answer payload of `disponibilite_salle` after events are fetched: either
the refusal (`ok: False` with the error message) or an availability answer
(`ok: True`). The echoed range bounds of the source payload are
presentation only. -/
inductive RoomResp where
  | err (msg : String)
  | busy (until_ : Int) (summary : JValue)
  | freeUntil (t : Int) (nextSummary : JValue)
  | freeAllDay

/-- Decision core of `disponibilite_salle` on the fetched events and the
parsed window bounds: refuse an inverted window, filter by the window when one
bound is supplied, normalize end times, then answer busy or free. -/
def disponibiliteCore (events0 : List PEvent) (startDt endDt : Option Int) (now : Int) :
    RoomResp :=
  if invalidRangeCheck startDt endDt then
    .err "La limite de fin est antérieure à la limite de début"
  else
    let events1 := if startDt.isSome || endDt.isSome then windowFilter events0 startDt endDt
      else events0
    match availability (normalizeEvents events1) now with
    | .busy u sm => .busy u sm
    | .freeUntil t sm => .freeUntil t sm
    | .freeAllDay => .freeAllDay

/-- Best-effort location extraction of `ou_est_prof`: the LOCATION, location,
room keys of a mapping payload, or a LOCATION line of a text payload. -/
def extract_location (raw : RawPayload) : JValue :=
  match raw with
  | .dict j => pyOr (jGet j "LOCATION") (pyOr (jGet j "location") (pyOr (jGet j "room") .null))
  | .text cs =>
    match scanFor tryLocationAt cs with
    | some v => .str (String.mk (pyStripChars v))
    | none => .null

/-- Answer payload of `ou_est_prof` after events are fetched. -/
inductive ProfResp where
  | inClass (until_ : Int) (location : JValue) (summary : JValue)
  | freeNow (nextStart : Int) (nextLocation : JValue) (nextSummary : JValue)
  | freeAllDay

/-- Decision core of `ou_est_prof` on the fetched events: normalize end
times, then report the located ongoing session, else the next session, else
free all day. -/
def ouEstProfCore (events0 : List PEvent) (now : Int) : ProfResp :=
  let events := normalizeEvents events0
  match pickOngoing events now with
  | some e => .inClass e.end_ (pyOr (extract_location e.raw) e.summary) e.summary
  | none =>
    match pickFuture events now with
    | some nxt => .freeNow nxt.start (pyOr (extract_location nxt.raw) nxt.summary) nxt.summary
    | none => .freeAllDay

/-! ## Specification-side definitions (for refinement comparison only)

`specWindowKeep` renders the window-filter sentence of the specification
literally: an absent bound is unbounded, not a sentinel instant. It is
compared against `windowFilter`, the embedding of the source. -/

/-- The window-overlap predicate as the specification words it: an absent
bound imposes no constraint at all. -/
def specWindowKeep (ev : PEvent) (startDt endDt : Option Int) : Bool :=
  (match endDt with
    | none => true
    | some w => decide (ev.start < w)) &&
  (match startDt with
    | none => true
    | some w => decide (ev.end_.getD ev.start > w))

/-! ## Concrete sample values used by witnesses and counterexamples -/

/-- Normalized event 00:00 to 00:00:10 on day one. -/
def wEv1 : NEvent := { start := 0, end_ := 10000000, summary := .null, raw := .text [] }

/-- Raw event with an explicit ten-second duration. -/
def wEv10 : PEvent := { start := 0, end_ := some 10000000, summary := .null, raw := .text [] }

/-- Raw event parsed without an end time: zero-duration after
normalization. -/
def wEvZ : PEvent := { start := 0, end_ := none, summary := .null, raw := .text [] }

def wT0900 : Int := toTS 2025 10 25 9 0 0

def wT1000 : Int := toTS 2025 10 25 10 0 0

def wT1400 : Int := toTS 2025 10 25 14 0 0

def wT1500 : Int := toTS 2025 10 25 15 0 0

def wT0930 : Int := toTS 2025 10 25 9 30 0

def wT1300 : Int := toTS 2025 10 25 13 0 0

/-- Event 09:00 to 10:00 of the window example. -/
def wEvA : PEvent := { start := wT0900, end_ := some wT1000, summary := .str "A", raw := .text [] }

/-- Event 14:00 to 15:00 of the window example. -/
def wEvB : PEvent := { start := wT1400, end_ := some wT1500, summary := .str "B", raw := .text [] }

/-- Zero-length event at `datetime.min`: representable, yet dropped by the
window filter whenever the start bound is absent. -/
def cexEvMin : PEvent := { start := dtMin, end_ := some dtMin, summary := .str "", raw := .text [] }

/-- One-professor directory for the lookup examples. -/
def cexDir : Directory :=
  { prof := [{ descTT := some "Jean DUPONT", adeUniv := some "caen",
               adeResources := some "123", adeProjectId := some 2024 }],
    student := [], salle := [], univ := [] }

/-- Queryable descriptor for the URL-builder witness. -/
def wEntry : FoundEntry :=
  { type := "salle", desc := some "S3 044", adeUniv := some "caen",
    adeResources := some "123", adeProjectId := some 2024, timetable := none }

/-- Structured-feed record with both start and end timestamps. -/
def wRecC7 : JValue :=
  .obj [("DTSTART", .str "20251025T080000"), ("DTEND", .str "20251025T100000"),
        ("SUMMARY", .str "TD Algo")]

/-- Calendar block carrying a bare 8-digit all-day start. -/
def wPartC8 : List Char := "DTSTART:20251025\r\nSUMMARY:AllDay\r\nEND:VEVENT\r\n".data

/-- Structured feed with one good record, one record with no start and one
record with an unparseable start. -/
def wFeedC9 : String :=
  "\x7b\"2025-10-25\": \x7b\"content\": [\x7b\"DTSTART\": \"20251025T080000\", \"SUMMARY\": \"TD\"\x7d, \x7b\"SUMMARY\": \"no start\"\x7d, \x7b\"DTSTART\": \"xx\"\x7d]\x7d\x7d"

/-- First record of `wFeedC9`, the well-formed one. -/
def wRec1C9 : JValue := .obj [("DTSTART", .str "20251025T080000"), ("SUMMARY", .str "TD")]

/-- Second record of `wFeedC9`, missing its start time. -/
def wRec2C9 : JValue := .obj [("SUMMARY", .str "no start")]

/-- Third record of `wFeedC9`, with an unparseable start time. -/
def wRec3C9 : JValue := .obj [("DTSTART", .str "xx")]

/-- Parsed shape of `wFeedC9`. -/
def wKvsC9 : List (String × JValue) :=
  [("2025-10-25", .obj [("content", .arr [wRec1C9, wRec2C9, wRec3C9])])]

/-! ## Helper lemmas -/

theorem mem_insertByKey {α : Type} (key : α → Int) (x b : α) (l : List α) :
    b ∈ insertByKey key x l ↔ b = x ∨ b ∈ l := by
  induction l with
  | nil => simp [insertByKey]
  | cons y ys ih =>
    simp only [insertByKey]
    split
    · simp only [List.mem_cons, ih]
      tauto
    · simp only [List.mem_cons]

theorem sorted_insertByKey {α : Type} (key : α → Int) (x : α) (l : List α)
    (h : l.Pairwise (fun a b => key a ≤ key b)) :
    (insertByKey key x l).Pairwise (fun a b => key a ≤ key b) := by
  induction l with
  | nil => simp [insertByKey]
  | cons y ys ih =>
    rw [List.pairwise_cons] at h
    simp only [insertByKey]
    split
    · rename_i hle
      rw [List.pairwise_cons]
      refine ⟨?_, ih h.2⟩
      intro a ha
      rw [mem_insertByKey] at ha
      rcases ha with rfl | ha
      · exact hle
      · exact h.1 a ha
    · rename_i hgt
      rw [List.pairwise_cons]
      refine ⟨?_, List.pairwise_cons.mpr h⟩
      intro a ha
      rcases List.mem_cons.mp ha with rfl | ha
      · omega
      · have := h.1 a ha
        omega

theorem mem_foldl_insert {α : Type} (key : α → Int) (l acc : List α) (b : α) :
    b ∈ l.foldl (fun a x => insertByKey key x a) acc ↔ b ∈ acc ∨ b ∈ l := by
  induction l generalizing acc with
  | nil => simp
  | cons y ys ih =>
    simp only [List.foldl_cons, ih, mem_insertByKey, List.mem_cons]
    tauto

theorem sorted_foldl_insert {α : Type} (key : α → Int) (l acc : List α)
    (h : acc.Pairwise (fun a b => key a ≤ key b)) :
    (l.foldl (fun a x => insertByKey key x a) acc).Pairwise (fun a b => key a ≤ key b) := by
  induction l generalizing acc with
  | nil => simpa
  | cons y ys ih => exact ih _ (sorted_insertByKey key y acc h)

theorem mem_sortByKey {α : Type} (key : α → Int) (l : List α) (b : α) :
    b ∈ sortByKey key l ↔ b ∈ l := by
  simp [sortByKey, mem_foldl_insert]

theorem sorted_sortByKey {α : Type} (key : α → Int) (l : List α) :
    (sortByKey key l).Pairwise (fun a b => key a ≤ key b) :=
  sorted_foldl_insert key l [] (by simp)

theorem sortByKey_eq_nil_iff {α : Type} (key : α → Int) (l : List α) :
    sortByKey key l = [] ↔ l = [] := by
  constructor
  · intro h
    cases l with
    | nil => rfl
    | cons x xs =>
      have hx : x ∈ sortByKey key (x :: xs) := (mem_sortByKey key _ x).mpr (by simp)
      rw [h] at hx
      simp at hx
  · intro h
    subst h
    rfl

theorem head_sortByKey {α : Type} (key : α → Int) (l : List α) (e : α)
    (h : (sortByKey key l).head? = some e) :
    e ∈ l ∧ ∀ x ∈ l, key e ≤ key x := by
  cases hs : sortByKey key l with
  | nil => rw [hs] at h; simp at h
  | cons a t =>
    rw [hs] at h
    simp only [List.head?_cons, Option.some.injEq] at h
    have hmem : e ∈ l := (mem_sortByKey key l e).mp (by rw [hs, ← h]; simp)
    refine ⟨hmem, ?_⟩
    intro x hx
    have hx2 : x ∈ sortByKey key l := (mem_sortByKey key l x).mpr hx
    rw [hs] at hx2
    rcases List.mem_cons.mp hx2 with rfl | hx3
    · rw [← h]
    · have hp := sorted_sortByKey key l
      rw [hs, List.pairwise_cons] at hp
      rw [← h]
      exact hp.1 x hx3

theorem pickOngoing_spec (events : List NEvent) (now : Int) (e : NEvent)
    (h : pickOngoing events now = some e) :
    e ∈ ongoingOf events now ∧ ∀ x ∈ ongoingOf events now, e.end_ ≤ x.end_ :=
  head_sortByKey _ _ e h

theorem pickFuture_spec (events : List NEvent) (now : Int) (e : NEvent)
    (h : pickFuture events now = some e) :
    e ∈ futureOf events now ∧ ∀ x ∈ futureOf events now, e.start ≤ x.start :=
  head_sortByKey _ _ e h

theorem pickOngoing_of_ne_nil (events : List NEvent) (now : Int)
    (h : ongoingOf events now ≠ []) : ∃ e, pickOngoing events now = some e := by
  have h2 : sortByKey (fun e => e.end_) (ongoingOf events now) ≠ [] := by
    rwa [Ne, sortByKey_eq_nil_iff]
  cases hs : sortByKey (fun e => e.end_) (ongoingOf events now) with
  | nil => exact absurd hs h2
  | cons a t => exact ⟨a, by simp [pickOngoing, hs]⟩

theorem pickFuture_of_ne_nil (events : List NEvent) (now : Int)
    (h : futureOf events now ≠ []) : ∃ e, pickFuture events now = some e := by
  have h2 : sortByKey (fun e => e.start) (futureOf events now) ≠ [] := by
    rwa [Ne, sortByKey_eq_nil_iff]
  cases hs : sortByKey (fun e => e.start) (futureOf events now) with
  | nil => exact absurd hs h2
  | cons a t => exact ⟨a, by simp [pickFuture, hs]⟩

theorem pickOngoing_eq_none (events : List NEvent) (now : Int)
    (h : ongoingOf events now = []) : pickOngoing events now = none := by
  simp [pickOngoing, h, sortByKey]

theorem pickFuture_eq_none (events : List NEvent) (now : Int)
    (h : futureOf events now = []) : pickFuture events now = none := by
  simp [pickFuture, h, sortByKey]

theorem pyInChars_iff (n hay : List Char) :
    pyInChars n hay = true ↔ ∃ t, t <:+ hay ∧ n <+: t := by
  simp [pyInChars, List.any_eq_true, List.mem_tails, List.isPrefixOf_iff_prefix]

theorem pyInChars_nil_left (hay : List Char) : pyInChars [] hay = true :=
  (pyInChars_iff [] hay).mpr ⟨hay, List.suffix_refl hay, List.nil_prefix⟩

theorem pyInChars_ne_empty (n : List Char) (h : n ≠ []) : pyInChars n [] = false := by
  cases hb : pyInChars n []
  · rfl
  · exfalso
    obtain ⟨t, ht, hn⟩ := (pyInChars_iff n []).mp hb
    rw [List.suffix_nil.mp ht] at hn
    exact h (List.prefix_nil.mp hn)

theorem filterMap_guard {α β : Type} (p : α → Bool) (f : α → β) (l : List α) :
    l.filterMap (fun x => if p x then some (f x) else none) = (l.filter p).map f := by
  induction l with
  | nil => rfl
  | cons x xs ih =>
    cases h : p x <;> simp [List.filterMap_cons, List.filter_cons, h, ih]

theorem string_eq_empty_iff (s : String) : s = "" ↔ s.data = [] := by
  constructor
  · intro h
    subst h
    rfl
  · intro h
    exact String.ext h

/-! ## Claim theorems -/

/-- C1: over a normalized event list and an instant `now`, the ongoing set is
exactly the events with start ≤ now < end and, when non-empty, the answer is
busy with `until` equal to the earliest end among ongoing events; otherwise
the future set is exactly the events with start > now and, when non-empty,
the answer is free with `free_until` equal to the earliest future start; when
both sets are empty the answer is free for the rest of the day with no end
bound. -/
theorem C1_availability_decision (events : List NEvent) (now : Int) :
    (∀ e, e ∈ ongoingOf events now ↔ e ∈ events ∧ e.start ≤ now ∧ now < e.end_)
    ∧ (∀ e, e ∈ futureOf events now ↔ e ∈ events ∧ now < e.start)
    ∧ (ongoingOf events now ≠ [] →
        ∃ e, e ∈ ongoingOf events now ∧ availability events now = .busy e.end_ e.summary
          ∧ ∀ x ∈ ongoingOf events now, e.end_ ≤ x.end_)
    ∧ (ongoingOf events now = [] → futureOf events now ≠ [] →
        ∃ e, e ∈ futureOf events now ∧ availability events now = .freeUntil e.start e.summary
          ∧ ∀ x ∈ futureOf events now, e.start ≤ x.start)
    ∧ (ongoingOf events now = [] → futureOf events now = [] →
        availability events now = .freeAllDay) := by
  refine ⟨?_, ?_, ?_, ?_, ?_⟩
  · intro e
    simp [ongoingOf, List.mem_filter]
  · intro e
    simp [futureOf, List.mem_filter]
  · intro h
    obtain ⟨e, he⟩ := pickOngoing_of_ne_nil events now h
    obtain ⟨hmem, hmin⟩ := pickOngoing_spec events now e he
    exact ⟨e, hmem, by simp [availability, he], hmin⟩
  · intro h0 hf
    obtain ⟨e, he⟩ := pickFuture_of_ne_nil events now hf
    obtain ⟨hmem, hmin⟩ := pickFuture_spec events now e he
    exact ⟨e, hmem, by simp [availability, pickOngoing_eq_none events now h0, he], hmin⟩
  · intro h0 hf
    simp [availability, pickOngoing_eq_none events now h0, pickFuture_eq_none events now hf]

/-- Witness for C1: the busy branch on a concrete one-event list. -/
theorem C1_witness : availability [wEv1] 5 = .busy 10000000 .null := by
  obtain ⟨e, hmem, hav, _⟩ := (C1_availability_decision [wEv1] 5).2.2.1
    (by rw [show ongoingOf [wEv1] 5 = [wEv1] from rfl]; exact List.cons_ne_nil _ _)
  have he : e = wEv1 := by
    rw [show ongoingOf [wEv1] 5 = [wEv1] from rfl] at hmem
    simpa using hmem
  rw [hav, he]
  rfl

/-- C3: when both window bounds parse and the parsed end is before the parsed
start, the room-availability decision refuses with the invalid-range error
and never produces a success answer. -/
theorem C3_invalid_range (events : List PEvent) (s e now : Int) (h : e < s) :
    disponibiliteCore events (some s) (some e) now
        = .err "La limite de fin est antérieure à la limite de début"
    ∧ (∀ u sm, disponibiliteCore events (some s) (some e) now ≠ .busy u sm)
    ∧ (∀ t sm, disponibiliteCore events (some s) (some e) now ≠ .freeUntil t sm)
    ∧ disponibiliteCore events (some s) (some e) now ≠ .freeAllDay := by
  have h1 : disponibiliteCore events (some s) (some e) now
      = .err "La limite de fin est antérieure à la limite de début" := by
    simp [disponibiliteCore, invalidRangeCheck, h]
  refine ⟨h1, ?_, ?_, ?_⟩ <;> simp [h1]

/-- Witness for C3 at a concrete inverted window. -/
theorem C3_witness :
    disponibiliteCore [] (some 1) (some 0) 0
      = .err "La limite de fin est antérieure à la limite de début" :=
  (C3_invalid_range [] 1 0 0 (by decide)).1

/-- C10: after end-time normalization a zero-duration event (in particular
any event parsed without an end) never satisfies the ongoing predicate, so
the busy and in-class answers always come from an event whose end is
strictly later than its start; only the future branch can select a
zero-duration event. -/
theorem C10_zero_duration_never_busy (events0 : List PEvent) (now : Int) :
    (∀ e ∈ normalizeEvents events0, e.end_ = e.start →
        e ∉ ongoingOf (normalizeEvents events0) now)
    ∧ (∀ u sm, availability (normalizeEvents events0) now = .busy u sm →
        ∃ e ∈ ongoingOf (normalizeEvents events0) now, e.start < e.end_ ∧ e.end_ = u)
    ∧ (∀ u loc sm, ouEstProfCore events0 now = .inClass u loc sm →
        ∃ e ∈ ongoingOf (normalizeEvents events0) now, e.start < e.end_ ∧ e.end_ = u) := by
  refine ⟨?_, ?_, ?_⟩
  · intro e _ hz hmemo
    rw [ongoingOf, List.mem_filter] at hmemo
    have h2 := of_decide_eq_true hmemo.2
    omega
  · intro u sm hav
    cases hp : pickOngoing (normalizeEvents events0) now with
    | none =>
      exfalso
      cases hq : pickFuture (normalizeEvents events0) now <;>
        simp [availability, hp, hq] at hav
    | some e =>
      simp only [availability, hp] at hav
      obtain ⟨hmem, _⟩ := pickOngoing_spec _ _ e hp
      have h2 := of_decide_eq_true (List.mem_filter.mp hmem).2
      exact ⟨e, hmem, by omega, by simp at hav; exact hav.1⟩
  · intro u loc sm hav
    cases hp : pickOngoing (normalizeEvents events0) now with
    | none =>
      exfalso
      cases hq : pickFuture (normalizeEvents events0) now <;>
        simp [ouEstProfCore, hp, hq] at hav
    | some e =>
      simp only [ouEstProfCore, hp] at hav
      obtain ⟨hmem, _⟩ := pickOngoing_spec _ _ e hp
      have h2 := of_decide_eq_true (List.mem_filter.mp hmem).2
      exact ⟨e, hmem, by omega, by simp at hav; exact hav.1⟩

/-- Witness for C10: the normalized zero-duration event is not ongoing at a
concrete instant inside the day. -/
theorem C10_witness :
    ({ start := 0, end_ := 0, summary := .null, raw := .text [] } : NEvent)
      ∉ ongoingOf (normalizeEvents [wEvZ]) 5 :=
  (C10_zero_duration_never_busy [wEvZ] 5).1
    { start := 0, end_ := 0, summary := .null, raw := .text [] }
    (by rw [show normalizeEvents [wEvZ]
          = [{ start := 0, end_ := 0, summary := .null, raw := .text [] }] from rfl]
        exact List.mem_singleton.mpr rfl)
    rfl

/-- Counterexample to C4 as stated: with an absent start bound the
specification reading (missing bound means minus infinity) keeps the
representable zero-length event at `datetime.min`, but the source filter
compares the event end against `datetime.min` itself with a strict
inequality and drops the event. -/
theorem C4_counterexample :
    specWindowKeep cexEvMin none (some 46800000000) = true
      ∧ windowFilter [cexEvMin] none (some 46800000000) = [] := ⟨rfl, rfl⟩

/-- C4 amended: the window filter keeps exactly the events satisfying
start < winEnd and end > winStart where a missing bound is replaced by
`datetime.min` or `datetime.max`, the extreme representable instants, rather
than a true infinity; for events lying strictly inside the representable
range this coincides with the unbounded reading, and on the 09:30 to 13:00
window example only the 09:00 to 10:00 event survives. -/
theorem C4_window_filter (events : List PEvent) (startDt endDt : Option Int)
    (h : startDt.isSome ∨ endDt.isSome) :
    (∀ ev, ev ∈ windowFilter events startDt endDt ↔
        ev ∈ events ∧ ev.start < endDt.getD dtMax ∧ ev.end_.getD ev.start > startDt.getD dtMin)
    ∧ (∀ ev ∈ events, ev.start < dtMax → ev.end_.getD ev.start > dtMin →
        (ev ∈ windowFilter events startDt endDt ↔ specWindowKeep ev startDt endDt = true))
    ∧ windowFilter [wEvA, wEvB] (some wT0930) (some wT1300) = [wEvA] := by
  refine ⟨?_, ?_, rfl⟩
  · intro ev
    simp [windowFilter, List.mem_filter]
  · intro ev hev h1 h2
    cases startDt with
    | none =>
      cases endDt with
      | none => simp at h
      | some we =>
        simp only [windowFilter, List.mem_filter, specWindowKeep, hev, true_and,
          decide_eq_true_eq, Option.getD_none, Option.getD_some, Bool.and_eq_true,
          Bool.true_and, Bool.and_true, gt_iff_lt]
        omega
    | some ws =>
      cases endDt with
      | none =>
        simp only [windowFilter, List.mem_filter, specWindowKeep, hev, true_and,
          decide_eq_true_eq, Option.getD_none, Option.getD_some, Bool.and_eq_true,
          Bool.true_and, Bool.and_true, gt_iff_lt]
        omega
      | some we =>
        simp only [windowFilter, List.mem_filter, specWindowKeep, hev, true_and,
          decide_eq_true_eq, Option.getD_none, Option.getD_some, Bool.and_eq_true,
          Bool.true_and, Bool.and_true, gt_iff_lt]

/-- Witness for C4: the coincidence with the unbounded reading at a concrete
in-range event and window. -/
theorem C4_witness :
    wEvA ∈ windowFilter [wEvA, wEvB] (some wT0930) (some wT1300)
      ↔ specWindowKeep wEvA (some wT0930) (some wT1300) = true :=
  (C4_window_filter [wEvA, wEvB] (some wT0930) (some wT1300) (Or.inl rfl)).2.1 wEvA
    (List.mem_cons_self _ _) (by decide) (by decide)

theorem filterMap_if_true {α β : Type} (f : α → β) (p : α → Bool) (l : List α)
    (h : ∀ x ∈ l, p x = true) :
    l.filterMap (fun x => if p x then some (f x) else none) = l.map f := by
  rw [filterMap_guard, List.filter_eq_self.mpr h]

theorem checkList_eq (items : List RawItem) (typ nameL : String) :
    checkList items typ nameL
      = (items.filter (fun it => !(pyStrip (it.descTT.getD "")).data.isEmpty
            && pyIn nameL (pyLower (pyStrip (it.descTT.getD ""))))).map (listEntry typ) :=
  filterMap_guard _ _ items

theorem pyLower_data (s : String) : (pyLower s).data = s.data.map Char.toLower := rfl

theorem pyLower_empty : pyLower "" = "" := rfl

theorem pyIn_pyLower_of_ne {nameL s : String} (hn : nameL.data ≠ [])
    (h : pyIn nameL (pyLower s) = true) : s.data ≠ [] := by
  intro hs
  have h0 : pyLower s = "" := by
    apply String.ext
    rw [pyLower_data, hs]
    rfl
  rw [h0] at h
  have h1 : pyInChars nameL.data [] = true := h
  rw [pyInChars_ne_empty nameL.data hn] at h1
  exact Bool.noConfusion h1

/-- Counterexample to C5: on a directory holding one professor named Jean
DUPONT, the empty name returns that entry rather than an empty sequence,
because the empty string is a substring of every display name. -/
theorem C5_counterexample : find_entries_by_name cexDir "" ≠ [] := by decide

/-- C5 amended: an empty name matches every professor, student and room entry
whose stripped display name is nonempty, every institution and every
sub-timetable entry, in scan order; the result is not the empty sequence
unless the directory holds no such entries. -/
theorem C5_empty_name (dir : Directory) :
    find_entries_by_name dir "" =
      (dir.prof.filter (fun it => !(pyStrip (it.descTT.getD "")).data.isEmpty)).map
          (listEntry "prof")
      ++ (dir.student.filter (fun it => !(pyStrip (it.descTT.getD "")).data.isEmpty)).map
          (listEntry "student")
      ++ (dir.salle.filter (fun it => !(pyStrip (it.descTT.getD "")).data.isEmpty)).map
          (listEntry "salle")
      ++ dir.univ.flatMap (fun u => univEntry u :: u.timetable.map (ttEntry u)) := by
  have hin : ∀ s : String, pyIn "" s = true := fun s => pyInChars_nil_left s.data
  have hpred : ∀ it : RawItem,
      (!(pyStrip (it.descTT.getD "")).data.isEmpty
        && pyIn "" (pyLower (pyStrip (it.descTT.getD ""))))
      = !(pyStrip (it.descTT.getD "")).data.isEmpty := by
    intro it
    rw [hin, Bool.and_true]
  have huniv : ∀ us : List UnivItem,
      us.flatMap (fun u =>
        (if pyIn "" (pyLower (u.nameUniv.getD "")) then [univEntry u] else [])
          ++ u.timetable.filterMap (fun t =>
              if pyIn "" (pyLower (t.descTT.getD "")) then some (ttEntry u t) else none))
      = us.flatMap (fun u => univEntry u :: u.timetable.map (ttEntry u)) := by
    intro us
    induction us with
    | nil => rfl
    | cons u us ih =>
      rw [List.flatMap_cons, List.flatMap_cons, ih]
      congr 1
      rw [if_pos (hin (pyLower (u.nameUniv.getD "")))]
      rw [filterMap_if_true (ttEntry u) (fun t => pyIn "" (pyLower (t.descTT.getD "")))
        u.timetable (fun t _ => hin _)]
      rfl
  simp only [find_entries_by_name, pyLower_empty]
  rw [checkList_eq, checkList_eq, checkList_eq]
  simp only [hpred]
  rw [huniv]

/-- C6: for a non-empty name the lookup returns exactly the entries whose
stored display name contains the name case-insensitively, with no ranking,
in scan order professors, students, rooms, then institutions and their
sub-timetables; every returned entry stores a display name containing the
name. -/
theorem C6_lookup (dir : Directory) (name : String) (h : name ≠ "") :
    (find_entries_by_name dir name =
      (dir.prof.filter (fun it =>
          pyIn (pyLower name) (pyLower (pyStrip (it.descTT.getD ""))))).map (listEntry "prof")
      ++ (dir.student.filter (fun it =>
          pyIn (pyLower name) (pyLower (pyStrip (it.descTT.getD ""))))).map (listEntry "student")
      ++ (dir.salle.filter (fun it =>
          pyIn (pyLower name) (pyLower (pyStrip (it.descTT.getD ""))))).map (listEntry "salle")
      ++ dir.univ.flatMap (fun u =>
          (if pyIn (pyLower name) (pyLower (u.nameUniv.getD "")) then [univEntry u] else [])
          ++ (u.timetable.filter (fun t =>
              pyIn (pyLower name) (pyLower (t.descTT.getD "")))).map (ttEntry u)))
    ∧ ∀ r ∈ find_entries_by_name dir name,
        ∃ d, r.desc = some d ∧ pyIn (pyLower name) (pyLower d) = true := by
  have hnd : (pyLower name).data ≠ [] := by
    rw [pyLower_data]
    intro hmap
    exact h ((string_eq_empty_iff name).mpr (List.map_eq_nil_iff.mp hmap))
  have hpred : ∀ s : String,
      (!(s).data.isEmpty && pyIn (pyLower name) (pyLower s))
        = pyIn (pyLower name) (pyLower s) := by
    intro s
    cases hq : pyIn (pyLower name) (pyLower s)
    · simp
    · have hne : s.data ≠ [] := pyIn_pyLower_of_ne hnd hq
      have hie : s.data.isEmpty = false := by
        cases hdata : s.data
        · exact absurd hdata hne
        · rfl
      simp [hie]
  have h1 : find_entries_by_name dir name =
      (dir.prof.filter (fun it =>
          pyIn (pyLower name) (pyLower (pyStrip (it.descTT.getD ""))))).map (listEntry "prof")
      ++ (dir.student.filter (fun it =>
          pyIn (pyLower name) (pyLower (pyStrip (it.descTT.getD ""))))).map (listEntry "student")
      ++ (dir.salle.filter (fun it =>
          pyIn (pyLower name) (pyLower (pyStrip (it.descTT.getD ""))))).map (listEntry "salle")
      ++ dir.univ.flatMap (fun u =>
          (if pyIn (pyLower name) (pyLower (u.nameUniv.getD "")) then [univEntry u] else [])
          ++ (u.timetable.filter (fun t =>
              pyIn (pyLower name) (pyLower (t.descTT.getD "")))).map (ttEntry u)) := by
    have huniv : ∀ us : List UnivItem,
        us.flatMap (fun u =>
          (if pyIn (pyLower name) (pyLower (u.nameUniv.getD "")) then [univEntry u] else [])
            ++ u.timetable.filterMap (fun t =>
                if pyIn (pyLower name) (pyLower (t.descTT.getD "")) then some (ttEntry u t)
                else none))
        = us.flatMap (fun u =>
          (if pyIn (pyLower name) (pyLower (u.nameUniv.getD "")) then [univEntry u] else [])
            ++ (u.timetable.filter (fun t =>
                pyIn (pyLower name) (pyLower (t.descTT.getD "")))).map (ttEntry u)) := by
      intro us
      induction us with
      | nil => rfl
      | cons u us ih =>
        rw [List.flatMap_cons, List.flatMap_cons, ih]
        congr 2
        exact filterMap_guard _ _ _
    simp only [find_entries_by_name]
    rw [checkList_eq, checkList_eq, checkList_eq]
    simp only [hpred]
    rw [huniv]
  refine ⟨h1, ?_⟩
  intro r hr
  rw [h1, List.mem_append, List.mem_append, List.mem_append] at hr
  rcases hr with ((hr | hr) | hr) | hr
  · obtain ⟨it, hit, rfl⟩ := List.mem_map.mp hr
    exact ⟨_, rfl, (List.mem_filter.mp hit).2⟩
  · obtain ⟨it, hit, rfl⟩ := List.mem_map.mp hr
    exact ⟨_, rfl, (List.mem_filter.mp hit).2⟩
  · obtain ⟨it, hit, rfl⟩ := List.mem_map.mp hr
    exact ⟨_, rfl, (List.mem_filter.mp hit).2⟩
  · obtain ⟨u, hu, hru⟩ := List.mem_flatMap.mp hr
    rw [List.mem_append] at hru
    rcases hru with hru | hru
    · by_cases hc : pyIn (pyLower name) (pyLower (u.nameUniv.getD "")) = true
      · rw [if_pos hc] at hru
        have hrr : r = univEntry u := List.mem_singleton.mp hru
        subst hrr
        cases hn : u.nameUniv with
        | none =>
          exfalso
          rw [hn] at hc
          have h2 : pyInChars (pyLower name).data [] = true := hc
          rw [pyInChars_ne_empty _ hnd] at h2
          exact Bool.noConfusion h2
        | some d =>
          refine ⟨d, ?_, ?_⟩
          · simp [univEntry, hn]
          · rw [hn] at hc
            simpa using hc
      · rw [if_neg hc] at hru
        simp at hru
    · obtain ⟨t, ht, rfl⟩ := List.mem_map.mp hru
      have hp := (List.mem_filter.mp ht).2
      cases hn : t.descTT with
      | none =>
        exfalso
        rw [hn] at hp
        have h2 : pyInChars (pyLower name).data [] = true := hp
        rw [pyInChars_ne_empty _ hnd] at h2
        exact Bool.noConfusion h2
      | some d =>
        refine ⟨d, ?_, ?_⟩
        · simp [ttEntry, hn]
        · rw [hn] at hp
          simpa using hp

/-- Witness for C6: the lookup of dupont against the sample directory yields
exactly the stored Jean DUPONT professor entry. -/
theorem C6_witness :
    find_entries_by_name cexDir "dupont"
      = [listEntry "prof"
          (⟨some "Jean DUPONT", some "caen", some "123", some 2024⟩ : RawItem)] := by
  have h := (C6_lookup cexDir "dupont" (by decide)).1
  rw [h]
  rfl

theorem qpChars_of_safe (cs : List Char) (h : ∀ c ∈ cs, qpSafe c = true) :
    qpChars cs = cs := by
  induction cs with
  | nil => rfl
  | cons c cs ih =>
    rw [qpChars, qpChar, if_pos (h c (List.mem_cons_self c cs))]
    rw [ih (fun x hx => h x (List.mem_cons_of_mem c hx))]
    rfl

theorem digitChar_safe (n : Nat) (h : n < 10) : qpSafe (digitChar n) = true := by
  interval_cases n <;> decide

theorem natDigitsAux_safe (fuel n : Nat) : ∀ c ∈ natDigitsAux fuel n, qpSafe c = true := by
  induction fuel generalizing n with
  | zero =>
    intro c hc
    simp [natDigitsAux] at hc
  | succ fuel ih =>
    intro c hc
    rw [natDigitsAux] at hc
    by_cases hn : n < 10
    · rw [if_pos hn] at hc
      have hce : c = digitChar n := List.mem_singleton.mp hc
      subst hce
      exact digitChar_safe n hn
    · rw [if_neg hn] at hc
      rw [List.mem_append] at hc
      rcases hc with hc | hc
      · exact ih (n / 10) c hc
      · have hce : c = digitChar (n % 10) := List.mem_singleton.mp hc
        subst hce
        exact digitChar_safe _ (Nat.mod_lt n (by omega))

theorem padNum_safe (w n : Nat) : ∀ c ∈ padNum w n, qpSafe c = true := by
  intro c hc
  rw [padNum, List.mem_append] at hc
  rcases hc with hc | hc
  · have hce : c = '0' := List.eq_of_mem_replicate hc
    subst hce
    decide
  · exact natDigitsAux_safe _ _ c hc

theorem quotePlus_fmtDate (d : Date) : quotePlus (fmtDateYmd d) = fmtDateYmd d := by
  unfold quotePlus fmtDateYmd
  congr 1
  apply qpChars_of_safe
  intro c hc
  simp only [String.data] at hc
  simp only [List.mem_append, List.mem_singleton] at hc
  rcases hc with (((hc | hc) | hc) | hc) | hc
  · exact padNum_safe _ _ c hc
  · subst hc; decide
  · exact padNum_safe _ _ c hc
  · subst hc; decide
  · exact padNum_safe _ _ c hc

/-- C2: the URL builder returns none exactly when the project or resource
identifier is missing; for a queryable descriptor it returns the single
schedule-update URL with exactly the four query parameters adeBase,
adeRessources, the fixed lastUpdate=0, and a date parameter equal to the
supplied date formatted YYYY-MM-DD, the current local date (the `today`
argument) being used when no date is supplied. The embedding is a pure
function, so the result is deterministic in the inputs; the source also
prints the URL, a log line that does not affect the result. -/
theorem C2_build_url (entry : FoundEntry) (date : Option Date) (today : Date) :
    (build_ade_url entry date today = none ↔
        entry.adeProjectId = none ∨ entry.adeResources = none)
    ∧ (∀ pid res, entry.adeProjectId = some pid → entry.adeResources = some res →
        build_ade_url entry date today =
          some ("https://edt.infuseting.fr/update/index.php" ++ "?" ++ "adeBase" ++ "="
            ++ quotePlus (toString pid) ++ "&" ++ "adeRessources" ++ "=" ++ quotePlus res
            ++ "&" ++ "lastUpdate" ++ "=" ++ "0" ++ "&" ++ "date" ++ "="
            ++ fmtDateYmd (date.getD today))) := by
  constructor
  · cases hp : entry.adeProjectId <;> cases hr : entry.adeResources <;>
      simp [build_ade_url, hp, hr]
  · intro pid res hp hr
    have e1 : quotePlus "adeBase" = "adeBase" := rfl
    have e2 : quotePlus "adeRessources" = "adeRessources" := rfl
    have e3 : quotePlus "lastUpdate" = "lastUpdate" := rfl
    have e4 : quotePlus "0" = "0" := rfl
    have e5 : quotePlus "date" = "date" := rfl
    simp only [build_ade_url, hp, hr, urlencode, e1, e2, e3, e4, e5, quotePlus_fmtDate,
      Option.some.injEq]
    simp only [String.append_assoc]

/-- Witness for C2 at a concrete queryable descriptor. -/
theorem C2_witness :
    build_ade_url wEntry none ⟨2025, 10, 25⟩
      = some "https://edt.infuseting.fr/update/index.php?adeBase=2024&adeRessources=123&lastUpdate=0&date=2025-10-25" := by
  have h := (C2_build_url wEntry none ⟨2025, 10, 25⟩).2 2024 "123" rfl rfl
  rw [h]
  rfl

/-- C7: for a structured-feed event record accepted by the reader, the stored
end equals the parsed DTEND value whenever the DTEND key holds a truthy and
parseable value, and after the orchestrator normalization the end equals the
start whenever no end was parsed. -/
theorem C7_end_roundtrip (ev : JValue) (p : PEvent) (h : recordEventFull ev = some p) :
    (∀ t, pyTruthy (jGet ev "DTEND") = true → parseUpdDT (jGet ev "DTEND") = some t →
        p.end_ = some t)
    ∧ (p.end_ = none → (normalizeEvent p).end_ = p.start) := by
  constructor
  · intro t hT hP
    rw [recordEventFull] at h
    have hdend : pyOr (jGet ev "DTEND") (pyOr (jGet ev "end") JValue.null)
        = jGet ev "DTEND" := by
      rw [pyOr, if_pos hT]
    rw [hdend] at h
    by_cases hs : pyTruthy (pyOr (jGet ev "DTSTART") (pyOr (jGet ev "start") JValue.null))
        = true
    · rw [if_pos hs] at h
      cases hparse : parseUpdDT (pyOr (jGet ev "DTSTART") (pyOr (jGet ev "start") JValue.null))
        with
      | none => rw [hparse] at h; exact Option.noConfusion h
      | some dt =>
        rw [hparse] at h
        rw [Option.some.injEq] at h
        rw [← h]
        rw [if_pos hT, hP]
    · rw [if_neg hs] at h
      exact Option.noConfusion h
  · intro hnone
    simp [normalizeEvent, hnone]

/-- Witness for C7: the end of the sample record equals its parsed DTEND. -/
theorem C7_witness :
    ({ start := toTS 2025 10 25 8 0 0, end_ := some (toTS 2025 10 25 10 0 0),
       summary := .str "TD Algo", raw := .dict wRecC7 } : PEvent).end_
      = some (toTS 2025 10 25 10 0 0) :=
  (C7_end_roundtrip wRecC7
      { start := toTS 2025 10 25 8 0 0, end_ := some (toTS 2025 10 25 10 0 0),
        summary := .str "TD Algo", raw := .dict wRecC7 } rfl).1
    (toTS 2025 10 25 10 0 0) rfl rfl

/-- C8: the all-day exclusion against the code. The full-list entry point is
the per-block extraction over the split blocks, and a block whose DTSTART
value is a bare 8-digit all-day date produces no event for either the
full-list extraction or the next-event extraction, so it is excluded from
the full list and from the spec-modelled next-event answer. The next-event
entry point of the source itself returns nothing at all on any input: its
body is syntactically invalid (utils.py line 219, over-indented return), and
a call is the IndentationError, not a result an all-day block could ever
reach. -/
theorem C8_allday_excluded (ics : String) (now : Int) :
    parse_ics_events ics = ((splitVevents ics.data).drop 1).filterMap icsBlockEventFull
    ∧ parse_ics_next_event now ics
        = .error "IndentationError: unexpected indent (utils.py line 219)"
    ∧ spec_ics_next_event now ics =
        (sortByKey (fun e => e.1)
          ((((splitVevents ics.data).drop 1).filterMap icsBlockEventNext).filter
            (fun e => decide (e.1 > now)))).head?
    ∧ (∀ part v, scanFor (tryTagAt dtstartTag) (takeUntilPat endVeventPat part) = some v →
        eightDigits (pyStripChars v) = true →
        icsBlockEventFull part = none ∧ icsBlockEventNext part = none) := by
  refine ⟨rfl, rfl, rfl, ?_⟩
  intro part v hscan h8
  constructor
  · simp [icsBlockEventFull, hscan, h8]
  · simp [icsBlockEventNext, hscan, h8]

/-- Witness for C8: the concrete all-day block yields no event on either
extraction, and the next-event entry point errors on a concrete input. -/
theorem C8_witness :
    (icsBlockEventFull wPartC8 = none ∧ icsBlockEventNext wPartC8 = none)
    ∧ parse_ics_next_event 0 ""
        = .error "IndentationError: unexpected indent (utils.py line 219)" :=
  ⟨(C8_allday_excluded "" 0).2.2.2 wPartC8 "20251025".data rfl rfl,
    (C8_allday_excluded "" 0).2.1⟩

theorem contentFold_ok (content : List JValue) (acc : List PEvent)
    (h : ∀ v ∈ content, ∃ e, v = JValue.obj e) :
    content.foldlM contentStep acc = .ok (acc ++ content.filterMap recordEventFull) := by
  induction content generalizing acc with
  | nil => simp; rfl
  | cons v vs ih =>
    obtain ⟨e, he⟩ := h v (List.mem_cons_self v vs)
    subst he
    rw [List.foldlM_cons]
    rw [show contentStep acc (JValue.obj e)
        = Except.ok (acc ++ (recordEventFull (JValue.obj e)).toList) from rfl]
    rw [show ((Except.ok (acc ++ (recordEventFull (JValue.obj e)).toList) :
          Except String (List PEvent))
        >>= fun b => vs.foldlM contentStep b)
        = vs.foldlM contentStep (acc ++ (recordEventFull (JValue.obj e)).toList) from rfl]
    rw [ih _ (fun x hx => h x (List.mem_cons_of_mem _ hx))]
    rw [List.filterMap_cons]
    cases hr : recordEventFull (JValue.obj e) <;> simp [hr, List.append_assoc]

theorem dayFold_ok (kvs : List (String × JValue)) (onlyDate : Option String)
    (acc : List PEvent)
    (h : ∀ v ∈ selectedContent kvs onlyDate, ∃ e, v = JValue.obj e) :
    kvs.foldlM (dayStep onlyDate) acc
      = .ok (acc ++ (selectedContent kvs onlyDate).filterMap recordEventFull) := by
  induction kvs generalizing acc with
  | nil => simp [selectedContent]; rfl
  | cons kv kvs ih =>
    have hsel : selectedContent (kv :: kvs) onlyDate
        = (if (onlyDate.getD "") != "" && kv.1 != onlyDate.getD "" then []
            else (dayContent kv.2).getD []) ++ selectedContent kvs onlyDate := by
      rw [selectedContent, List.flatMap_cons]
      rfl
    rw [List.foldlM_cons]
    by_cases hskip : ((onlyDate.getD "") != "" && kv.1 != onlyDate.getD "") = true
    · have hstep : dayStep onlyDate acc kv = .ok acc := by
        rw [dayStep, if_pos hskip]
      rw [hstep]
      rw [show ((Except.ok acc : Except String (List PEvent))
          >>= fun b => kvs.foldlM (dayStep onlyDate) b)
          = kvs.foldlM (dayStep onlyDate) acc from rfl]
      rw [ih _ (fun v hv => h v (by rw [hsel, List.mem_append]; right; exact hv))]
      rw [hsel, if_pos hskip]
      simp
    · cases hdc : dayContent kv.2 with
      | none =>
        have hstep : dayStep onlyDate acc kv = .ok acc := by
          rw [dayStep, if_neg hskip, hdc]
        rw [hstep]
        rw [show ((Except.ok acc : Except String (List PEvent))
            >>= fun b => kvs.foldlM (dayStep onlyDate) b)
            = kvs.foldlM (dayStep onlyDate) acc from rfl]
        rw [ih _ (fun v hv => h v (by rw [hsel, List.mem_append]; right; exact hv))]
        rw [hsel, if_neg hskip, hdc]
        simp
      | some content =>
        have hstep : dayStep onlyDate acc kv = content.foldlM contentStep acc := by
          rw [dayStep, if_neg hskip, hdc]
        rw [hstep]
        have hcontent : ∀ v ∈ content, ∃ e, v = JValue.obj e := by
          intro v hv
          apply h
          rw [hsel, List.mem_append]
          left
          rw [if_neg hskip, hdc]
          exact hv
        rw [contentFold_ok content acc hcontent]
        rw [show ((Except.ok (acc ++ content.filterMap recordEventFull) :
              Except String (List PEvent))
            >>= fun b => kvs.foldlM (dayStep onlyDate) b)
            = kvs.foldlM (dayStep onlyDate) (acc ++ content.filterMap recordEventFull)
            from rfl]
        rw [ih _ (fun v hv => h v (by rw [hsel, List.mem_append]; right; exact hv))]
        rw [hsel, if_neg hskip, hdc]
        simp [List.filterMap_append, List.append_assoc]

/-- C9: malformed top-level JSON makes the full-list entry point return the
empty list and the next-event entry point return none, with no error; for
well-formed top-level JSON whose content records are mappings, the full list
is the per-record extraction over all selected records, and any record whose
start time is missing (falsy) or unparseable contributes nothing while the
other records are still returned. -/
theorem C9_parser_error_policy (s : String) (d : Option String) (now : Int) :
    (jsonParse s = none →
        parse_update_json_events s d = .ok []
        ∧ parse_update_json_and_next_event now s = .ok none)
    ∧ (∀ kvs, jsonParse s = some (.obj kvs) →
        (∀ v ∈ selectedContent kvs d, ∃ e, v = JValue.obj e) →
        parse_update_json_events s d
          = .ok ((selectedContent kvs d).filterMap recordEventFull))
    ∧ (∀ ev, pyTruthy (pyOr (jGet ev "DTSTART") (pyOr (jGet ev "start") JValue.null))
          = false →
        recordEventFull ev = none)
    ∧ (∀ ev, parseUpdDT (pyOr (jGet ev "DTSTART") (pyOr (jGet ev "start") JValue.null))
          = none →
        recordEventFull ev = none) := by
  refine ⟨?_, ?_, ?_, ?_⟩
  · intro hj
    constructor
    · simp [parse_update_json_events, hj]
    · simp [parse_update_json_and_next_event, hj]
  · intro kvs hj hwf
    simp only [parse_update_json_events, hj]
    simpa using dayFold_ok kvs d [] hwf
  · intro ev hf
    simp [recordEventFull, hf]
  · intro ev hp
    by_cases ht : pyTruthy (pyOr (jGet ev "DTSTART") (pyOr (jGet ev "start") JValue.null))
        = true
    · simp [recordEventFull, ht, hp]
    · simp [recordEventFull, ht]

set_option maxRecDepth 8000 in
/-- Witness for C9: the sample feed keeps only its well-formed record, and a
malformed feed yields the empty answers. -/
theorem C9_witness :
    parse_update_json_events wFeedC9 none
        = .ok [{ start := toTS 2025 10 25 8 0 0, end_ := none, summary := .str "TD",
                 raw := .dict wRec1C9 }]
    ∧ parse_update_json_events "\x7b" none = .ok []
    ∧ parse_update_json_and_next_event 0 "\x7b" = .ok none := by
  refine ⟨?_, ((C9_parser_error_policy "\x7b" none 0).1 rfl).1,
    ((C9_parser_error_policy "\x7b" none 0).1 rfl).2⟩
  have hwf : ∀ v ∈ selectedContent wKvsC9 none, ∃ e, v = JValue.obj e := by
    intro v hv
    rw [show selectedContent wKvsC9 none = [wRec1C9, wRec2C9, wRec3C9] from rfl] at hv
    simp only [List.mem_cons, List.not_mem_nil, or_false] at hv
    rcases hv with rfl | rfl | rfl
    · exact ⟨_, rfl⟩
    · exact ⟨_, rfl⟩
    · exact ⟨_, rfl⟩
  have h := (C9_parser_error_policy wFeedC9 none 0).2.1 wKvsC9 rfl hwf
  rw [h]
  rfl

end MCPEdt
